import Mathlib

/-!
Shallow embedding of the retry/backoff/caching client layer of the chronos
backend (`app/utils/utils_pubmed.py`, `app/utils/utils_graph.py`,
`app/utils/utils_llm.py`).  Pure functions are translated directly; the
stateful retry loops are translated as explicit recursion over the remaining
loop iterations, with the nondeterministic outside world (ping results,
connection outcomes, HTTP responses) supplied as an explicit environment, and
the observable effects (connection calls, sleeps, HTTP requests, cache writes)
collected in a result record.
-/

/-- Parsed JSON values as handled by Python's `json` module.  Numbers are
restricted to integers: the payloads this code serializes (PubMed article
records and id lists) contain no floats. -/
inductive Json where
  | null
  | bool (b : Bool)
  | num (n : Int)
  | str (s : String)
  | arr (elems : List Json)
  | obj (fields : List (String × Json))

/-- Decimal digit character (codepoint 48 + d), used to print numerals the way
Python's `repr` of an `int` does. -/
def digitChar (d : Nat) : Char := Char.ofNat (48 + d)

/-- Decimal digits of a natural number, most significant first. -/
def natChars (n : Nat) : List Char :=
  if _h : n < 10 then [digitChar n]
  else natChars (n / 10) ++ [digitChar (n % 10)]
termination_by n
decreasing_by exact Nat.div_lt_self (by omega) (by omega)

/-- JSON string escaping for one character (quote, backslash and the common
control characters; `json.dumps`' further `\uXXXX` escapes for other control
characters are not needed by any payload here). -/
def escapeChar (c : Char) : List Char :=
  if c = '"' then ['\\', '"']
  else if c = '\\' then ['\\', '\\']
  else if c = '\n' then ['\\', 'n']
  else if c = '\t' then ['\\', 't']
  else if c = '\r' then ['\\', 'r']
  else [c]

/-- JSON string escaping for a character list. -/
def escapeChars (l : List Char) : List Char :=
  l.foldr (fun c acc => escapeChar c ++ acc) []

mutual

/-- `json.dumps` with Python's default separators `", "` and `": "`. -/
def dumps : Json → String
  | .null => "null"
  | .bool true => "true"
  | .bool false => "false"
  | .num n => (if n < 0 then "-" else "") ++ String.mk (natChars n.natAbs)
  | .str s => "\"" ++ String.mk (escapeChars s.toList) ++ "\""
  | .arr xs => "[" ++ dumpsList xs ++ "]"
  | .obj fs => "\x7b" ++ dumpsFields fs ++ "\x7d"

/-- Comma-separated serialization of a JSON array's elements. -/
def dumpsList : List Json → String
  | [] => ""
  | [x] => dumps x
  | x :: y :: rest => dumps x ++ ", " ++ dumpsList (y :: rest)

/-- Comma-separated serialization of a JSON object's key/value pairs. -/
def dumpsFields : List (String × Json) → String
  | [] => ""
  | [(k, v)] => "\"" ++ String.mk (escapeChars k.toList) ++ "\": " ++ dumps v
  | (k, v) :: f :: rest =>
      "\"" ++ String.mk (escapeChars k.toList) ++ "\": " ++ dumps v ++ ", " ++
        dumpsFields (f :: rest)

end

/-- Python truthiness of a parsed JSON value (`if cached_results:` and
friends): `None`, `False`, `0`, `""`, `[]` and `{}` are falsy. -/
def truthy : Json → Bool
  | .null => false
  | .bool b => b
  | .num n => n != 0
  | .str s => s != ""
  | .arr xs => !xs.isEmpty
  | .obj fs => !fs.isEmpty

/-! ## Cache-aside accessor (`utils_pubmed.py`: `cache_set`, `cache_get`)

The Redis string store is viewed at the parsed-JSON level: the Python code
stores `json.dumps v` under the key; `cache_get` tests the fetched string's
truthiness (its non-emptiness, line 101 `if result:`) and recovers `v` with
`json.loads`.  The store therefore maps keys to the `Json` values whose dumps
image is stored; `dumps` supplies the truthiness test. -/

/-- Key/value view of the Redis string store. -/
def Store := String → Option Json

/-- `redis.set(key, json.dumps value, ex=ttl)` at the parsed-JSON level. -/
def storeSet (st : Store) (key : String) (v : Json) : Store :=
  fun k => if k = key then some v else st k

/-- Environment for one `cache_get`/`cache_set` call: the store contents and,
for each 0-based loop attempt, whether that attempt's Redis acquisition
(`get_redis_with_retry`) and command both succeed.  A `false` entry models any
exception reaching the `except` clause of that attempt. -/
structure CacheEnv where
  store : Store
  attemptOk : Nat → Bool

/-- An exception escaping one attempt's `try` body. -/
inductive CacheErr where
  | attemptFailed (attempt : Nat)

/-- The `try` body of one `cache_get` attempt (utils_pubmed.py lines 98-103):
acquire Redis, `GET key`; `if result:` return `json.loads(result)`, else
return `None`. -/
def cache_get_attempt (env : CacheEnv) (key : String) (a : Nat) : Except CacheErr Json :=
  if env.attemptOk a then
    .ok (match env.store key with
         | none => Json.null
         | some v => if dumps v = "" then Json.null else v)
  else .error (.attemptFailed a)

/-- The retry loop of `cache_get` (lines 97-118): `a` is the 0-based attempt
index, the last argument the remaining loop iterations.  A failed non-final
attempt sleeps `0.5 * (attempt + 1)` and retries; the final failure logs and
returns `None` — it never re-raises. -/
def cache_get_loop (env : CacheEnv) (key : String) (maxRetries : Nat) (a : Nat) :
    Nat → Except CacheErr Json
  | 0 => .ok Json.null
  | rem + 1 =>
    match cache_get_attempt env key a with
    | .ok v => .ok v
    | .error _ =>
      if a < maxRetries - 1 then cache_get_loop env key maxRetries (a + 1) rem
      else .ok Json.null

/-- `cache_get(key, max_retries)` (utils_pubmed.py lines 95-118). -/
def cache_get (env : CacheEnv) (key : String) (maxRetries : Nat) : Except CacheErr Json :=
  cache_get_loop env key maxRetries 0 maxRetries

/-- The `try` body of one `cache_set` attempt (lines 75-78): acquire Redis,
`SET key (json.dumps value) ex=ttl`; yields the updated store. -/
def cache_set_attempt (env : CacheEnv) (key : String) (v : Json) (a : Nat) :
    Except CacheErr Store :=
  if env.attemptOk a then .ok (storeSet env.store key v)
  else .error (.attemptFailed a)

/-- The retry loop of `cache_set` (lines 74-93).  The final failed attempt
logs and returns without raising (the comment in the source: cache failures
must not break the application). -/
def cache_set_loop (env : CacheEnv) (key : String) (v : Json) (maxRetries : Nat) (a : Nat) :
    Nat → Except CacheErr Unit × Store
  | 0 => (.ok (), env.store)
  | rem + 1 =>
    match cache_set_attempt env key v a with
    | .ok st => (.ok (), st)
    | .error _ =>
      if a < maxRetries - 1 then cache_set_loop env key v maxRetries (a + 1) rem
      else (.ok (), env.store)

/-- `cache_set(key, value, ttl, max_retries)` (utils_pubmed.py lines 72-93).
The TTL is enforced by the external Redis store and has no observable effect
inside this layer, so it is not carried. -/
def cache_set (env : CacheEnv) (key : String) (v : Json) (maxRetries : Nat) :
    Except CacheErr Unit × Store :=
  cache_set_loop env key v maxRetries 0 maxRetries

/-! ## Resilient connection manager, Redis side
(`utils_pubmed.py`: `get_redis_with_retry`, lines 31-64)

Connection handles are identified by natural numbers.  `Redis.from_url` is
lazy and always yields a client object; the liveness probe `redis.ping()` is
what can fail, driven by the environment. -/

instance {ε α : Type} [DecidableEq ε] [DecidableEq α] : DecidableEq (Except ε α) := fun x y =>
  match x, y with
  | .ok a, .ok b =>
      if h : a = b then isTrue (by rw [h]) else isFalse (fun he => h (by cases he; rfl))
  | .error a, .error b =>
      if h : a = b then isTrue (by rw [h]) else isFalse (fun he => h (by cases he; rfl))
  | .ok _, .error _ => isFalse (fun he => by cases he)
  | .error _, .ok _ => isFalse (fun he => by cases he)

/-- Environment for one `get_redis_with_retry` call: the process-wide global
`redis` slot at entry, and for each handle whether its `ping()` succeeds. -/
structure RedisEnv where
  initialRedis : Option Nat
  pingOk : Nat → Bool

/-- Observable outcome of a `get_redis_with_retry` call.  `result` is
`.error h` when the call re-raises the last underlying failure (`raise e`,
line 62), where `h` is the handle whose ping raised; `.ok (some h)` is a
normal return of handle `h`; `.ok none` models the `return redis` after the
loop (line 64, reachable only with `max_retries = 0`, when `redis` is still
`None`).  `slot` is the global `redis` variable afterwards, `fromUrlCalls`
counts `Redis.from_url` invocations, `iterations` the executed loop
iterations, `sleeps` the `asyncio.sleep` durations in order. -/
structure RedisRun where
  result : Except Nat (Option Nat)
  slot : Option Nat
  fromUrlCalls : Nat
  iterations : Nat
  sleeps : List ℚ
deriving DecidableEq

/-- The retry loop of `get_redis_with_retry` (lines 37-62): `a` is the 0-based
attempt index (`for attempt in range(max_retries)`), `slot` the current global
`redis`, `fresh` the id the next `Redis.from_url` call would produce, and the
last argument the remaining loop iterations.  Each iteration creates a client
only if the slot is empty, then pings it; on failure it closes the client,
empties the slot, and sleeps `retry_delay * (attempt + 1)` unless the attempt
was the last, in which case it re-raises. -/
def redis_attempt_loop (env : RedisEnv) (retryDelay : ℚ) (maxRetries : Nat)
    (slot : Option Nat) (fresh : Nat) (a : Nat) : Nat → RedisRun
  | 0 => ⟨.ok slot, slot, 0, 0, []⟩
  | rem + 1 =>
    let hc : Nat × Nat := match slot with
      | some h => (h, 0)
      | none => (fresh, 1)
    if env.pingOk hc.1 then
      ⟨.ok (some hc.1), some hc.1, hc.2, 1, []⟩
    else
      if a < maxRetries - 1 then
        let r := redis_attempt_loop env retryDelay maxRetries none (fresh + 1) (a + 1) rem
        ⟨r.result, r.slot, r.fromUrlCalls + hc.2, r.iterations + 1,
          retryDelay * (a + 1) :: r.sleeps⟩
      else ⟨.error hc.1, none, hc.2, 1, []⟩

/-- `get_redis_with_retry(max_retries, retry_delay)` (utils_pubmed.py lines
31-64).  Fresh handles created by `Redis.from_url` are numbered from 1000. -/
def get_redis_with_retry (env : RedisEnv) (maxRetries : Nat) (retryDelay : ℚ) : RedisRun :=
  redis_attempt_loop env retryDelay maxRetries env.initialRedis 1000 0 maxRetries

/-! ## Resilient connection manager, Neo4j side
(`utils_graph.py`: `get_driver_with_retry`, lines 39-93) -/

/-- The module-level Neo4j configuration read from the environment
(`NEO4J_URI`, `NEO4J_USER`, `NEO4J_PASSWORD`); `none` models an unset
variable. -/
structure GraphCfg where
  uri : Option String
  user : String
  password : Option String

/-- Environment for one `get_driver_with_retry` call: the configuration, the
process-wide `driver` slot at entry, the liveness of existing handles
(`session.run("RETURN 1")` on the reuse path), and per 1-based attempt whether
creating a driver and probing it succeeds. -/
structure GraphEnv where
  cfg : GraphCfg
  initialDriver : Option Nat
  probeOk : Nat → Bool
  connectOk : Nat → Bool

/-- Observable outcome of a `get_driver_with_retry` call.  The function never
raises: on exhaustion it returns `None` (line 91), hence `result` is an
`Option`.  `connectCalls` counts `AsyncGraphDatabase.driver(...)` invocations,
`iterations` the executed loop iterations, `sleeps` the backoff sleeps in
order. -/
structure GraphRun where
  result : Option Nat
  slot : Option Nat
  connectCalls : Nat
  iterations : Nat
  sleeps : List ℚ
deriving DecidableEq

/-- The retry loop of `get_driver_with_retry` (lines 58-91): `a` is the
1-based attempt index (`for attempt in range(1, max_retries + 1)`).  Each
iteration first validates `NEO4J_URI` and `NEO4J_PASSWORD` — inside the loop,
so a missing value raises `ValueError` into the generic `except` like any
connection failure — then creates a driver (handle id = attempt index) and
probes it.  A failed non-final attempt closes the driver and sleeps
`retry_delay * 2 ** (attempt - 1)`; the final failure logs and returns
`None`. -/
def graph_attempt_loop (env : GraphEnv) (retryDelay : ℚ) (maxRetries : Nat) (a : Nat) :
    Nat → GraphRun
  | 0 => ⟨none, none, 0, 0, []⟩
  | rem + 1 =>
    if env.cfg.uri = none ∨ env.cfg.password = none then
      if a < maxRetries then
        let r := graph_attempt_loop env retryDelay maxRetries (a + 1) rem
        ⟨r.result, r.slot, r.connectCalls, r.iterations + 1,
          retryDelay * 2 ^ (a - 1) :: r.sleeps⟩
      else ⟨none, none, 0, 1, []⟩
    else if env.connectOk a then
      ⟨some a, some a, 1, 1, []⟩
    else
      if a < maxRetries then
        let r := graph_attempt_loop env retryDelay maxRetries (a + 1) rem
        ⟨r.result, r.slot, r.connectCalls + 1, r.iterations + 1,
          retryDelay * 2 ^ (a - 1) :: r.sleeps⟩
      else ⟨none, none, 1, 1, []⟩

/-- `get_driver_with_retry(max_retries, retry_delay)` (utils_graph.py lines
39-93).  Line 45 executes `driver = None` *before* the reuse check of lines
48-56, so the reuse branch below (kept to mirror the source) is dead: the
pre-existing handle in `env.initialDriver` is discarded without being probed
or closed, and every call proceeds to the connection loop. -/
def get_driver_with_retry (env : GraphEnv) (maxRetries : Nat) (retryDelay : ℚ) : GraphRun :=
  let driver0 : Option Nat := none
  match driver0 with
  | some h =>
      if env.probeOk h then ⟨some h, some h, 0, 0, []⟩
      else graph_attempt_loop env retryDelay maxRetries 1 maxRetries
  | none => graph_attempt_loop env retryDelay maxRetries 1 maxRetries

/-- Python `\w` on the ASCII range: alphanumerics and underscore. -/
def isPyWordChar (c : Char) : Bool := c.isAlphanum || c = '_'

/-- Python `\s` on the ASCII range: space, tab, newline, carriage return,
vertical tab, form feed. -/
def isPySpace (c : Char) : Bool :=
  c = ' ' || c = '\t' || c = '\n' || c = '\r' || c = '\x0b' || c = '\x0c'

/-- `re.sub(r'\*\*([^*]+)\*\*', r'\1', s)`: a match is `**`, a nonempty run of
non-`*` characters, then `**`; it is replaced by the run.  On no match at the
current position the scanner advances one character. -/
def sub_bold (l : List Char) : List Char :=
  match l with
  | [] => []
  | [c] => [c]
  | c :: c2 :: cs2 =>
    if c = '*' ∧ c2 = '*' then
      match _hrun : cs2.takeWhile (· != '*'), hrest : cs2.dropWhile (· != '*') with
      | r :: rs, '*' :: '*' :: rest2 => (r :: rs) ++ sub_bold rest2
      | _, _ => c :: sub_bold (c2 :: cs2)
    else c :: sub_bold (c2 :: cs2)
termination_by l.length
decreasing_by
  · have hgen : ∀ L : List Char, (L.dropWhile (· != '*')).length ≤ L.length := by
      intro L
      induction L with
      | nil => simp
      | cons hd tl ih =>
          rw [List.dropWhile_cons]
          split
          · exact Nat.le_trans ih (Nat.le_succ _)
          · exact Nat.le_refl _
    have h1 := hgen cs2
    rw [hrest] at h1
    simp only [List.length_cons] at h1 ⊢
    omega
  all_goals simp only [List.length_cons]
  all_goals omega

/-- `re.sub(r'\*([^*]+)\*', r'\1', s)`: `*`, a nonempty non-`*` run, `*`,
replaced by the run. -/
def sub_italic (l : List Char) : List Char :=
  match l with
  | [] => []
  | c :: cs =>
    if c = '*' then
      match _hrun : cs.takeWhile (· != '*'), hrest : cs.dropWhile (· != '*') with
      | r :: rs, '*' :: rest2 => (r :: rs) ++ sub_italic rest2
      | _, _ => c :: sub_italic cs
    else c :: sub_italic cs
termination_by l.length
decreasing_by
  · have hgen : ∀ L : List Char, (L.dropWhile (· != '*')).length ≤ L.length := by
      intro L
      induction L with
      | nil => simp
      | cons hd tl ih =>
          rw [List.dropWhile_cons]
          split
          · exact Nat.le_trans ih (Nat.le_succ _)
          · exact Nat.le_refl _
    have h1 := hgen cs
    rw [hrest] at h1
    simp only [List.length_cons] at h1 ⊢
    omega
  all_goals simp only [List.length_cons]
  all_goals omega

/-- `re.sub(r'`([^`]+)`', r'\1', s)`: backquote, a nonempty run without
backquotes, backquote, replaced by the run. -/
def sub_code (l : List Char) : List Char :=
  match l with
  | [] => []
  | c :: cs =>
    if c = '\u0060' then
      match _hrun : cs.takeWhile (· != '\u0060'), hrest : cs.dropWhile (· != '\u0060') with
      | r :: rs, '\u0060' :: rest2 => (r :: rs) ++ sub_code rest2
      | _, _ => c :: sub_code cs
    else c :: sub_code cs
termination_by l.length
decreasing_by
  · have hgen : ∀ L : List Char, (L.dropWhile (· != '\u0060')).length ≤ L.length := by
      intro L
      induction L with
      | nil => simp
      | cons hd tl ih =>
          rw [List.dropWhile_cons]
          split
          · exact Nat.le_trans ih (Nat.le_succ _)
          · exact Nat.le_refl _
    have h1 := hgen cs
    rw [hrest] at h1
    simp only [List.length_cons] at h1 ⊢
    omega
  all_goals simp only [List.length_cons]
  all_goals omega

/-- `re.sub(r'#{1,6}\s*', '', s)`: one to six `#` (greedy) and any following
whitespace are deleted. -/
def sub_header (l : List Char) : List Char :=
  match l with
  | [] => []
  | c :: cs =>
    if c = '#' then
      sub_header ((cs.drop (min (cs.takeWhile (· == '#')).length 5)).dropWhile isPySpace)
    else c :: sub_header cs
termination_by l.length
decreasing_by
  · have hgen : ∀ L : List Char, (L.dropWhile isPySpace).length ≤ L.length := by
      intro L
      induction L with
      | nil => simp
      | cons hd tl ih =>
          rw [List.dropWhile_cons]
          split
          · exact Nat.le_trans ih (Nat.le_succ _)
          · exact Nat.le_refl _
    have h1 := hgen (cs.drop (min (cs.takeWhile (· == '#')).length 5))
    rw [List.length_drop] at h1
    simp only [List.length_cons] at h1 ⊢
    omega
  · simp only [List.length_cons]
    omega

/-- `re.sub(r'[•·‒–—―‐]', '-', s)`: bullet and the Unicode dash family become
ASCII hyphen. -/
def normalize_dashes (l : List Char) : List Char :=
  l.map fun c =>
    if c = '•' ∨ c = '·' ∨ c = '‒' ∨ c = '–' ∨ c = '—' ∨
        c = '―' ∨ c = '‐' then '-' else c

/-- `re.sub(r'[“”‘’`´]', '\"', s)`: curly quotes, backquote and acute accent
become ASCII double quote. -/
def normalize_quotes (l : List Char) : List Char :=
  l.map fun c =>
    if c = '“' ∨ c = '”' ∨ c = '‘' ∨ c = '’' ∨ c = '\u0060' ∨
        c = '´' then '"' else c

/-- The character class kept by
`re.sub(r'[^\w\s\.\,\!\?\;\:\(\)\-\"\']', '', s)`. -/
def keepChar (c : Char) : Bool :=
  isPyWordChar c || isPySpace c ||
    c = '.' || c = ',' || c = '!' || c = '?' || c = ';' || c = ':' ||
    c = '(' || c = ')' || c = '-' || c = '"' || c = '\''

/-- Deletion of all characters outside `keepChar`. -/
def remove_special (l : List Char) : List Char := l.filter keepChar

/-- `re.sub(r'\s+', ' ', s)`: every maximal whitespace run becomes one
space. -/
def collapse_ws : List Char → List Char
  | [] => []
  | [c] => if isPySpace c then [' '] else [c]
  | c :: d :: rest =>
    if isPySpace c then
      if isPySpace d then collapse_ws (d :: rest)
      else ' ' :: collapse_ws (d :: rest)
    else c :: collapse_ws (d :: rest)

/-- `re.sub(r'\n\s*\n', '\n\n', s)`: a newline, a whitespace run containing at
least one further newline (the greedy `\s*` backtracks to the last newline it
covers), replaced by exactly two newlines. -/
def sub_dnl (l : List Char) : List Char :=
  match l with
  | [] => []
  | c :: cs =>
    if c = '\n' then
      let w := cs.takeWhile isPySpace
      let t := w.reverse.takeWhile (· != '\n')
      if t.length < w.length then
        '\n' :: '\n' :: sub_dnl (cs.drop (w.length - t.length))
      else c :: sub_dnl cs
    else c :: sub_dnl cs
termination_by l.length
decreasing_by
  · have h1 := List.length_drop
      ((cs.takeWhile isPySpace).length - ((cs.takeWhile isPySpace).reverse.takeWhile (· != '\n')).length) cs
    simp only [List.length_cons] at h1 ⊢
    omega
  all_goals simp only [List.length_cons]
  all_goals omega

/-- Python `str.strip()` on the ASCII whitespace class. -/
def py_strip (l : List Char) : List Char :=
  ((l.dropWhile isPySpace).reverse.dropWhile isPySpace).reverse

/-- Lines 45-46: `if hypothesis and not hypothesis.endswith(('.', '!', '?')):
hypothesis += '.'`. -/
def ensure_period (l : List Char) : List Char :=
  match l.getLast? with
  | none => l
  | some c => if c = '.' || c = '!' || c = '?' then l else l ++ ['.']

/-- `clean_hypothesis_text` on character lists: the source's substitutions in
order (lines 27-46). -/
def clean_hypothesis_text_list (l : List Char) : List Char :=
  ensure_period (py_strip (sub_dnl (collapse_ws (remove_special (normalize_quotes
    (normalize_dashes (sub_header (sub_code (sub_italic (sub_bold l))))))))))

/-- `clean_hypothesis_text(hypothesis)` (utils_llm.py lines 22-48). -/
def clean_hypothesis_text (s : String) : String :=
  String.mk (clean_hypothesis_text_list s.toList)

/-! ### Idempotence infrastructure for `clean_hypothesis_text`

The output of the pipeline contains only characters kept by `keepChar`, has
all whitespace collapsed to single interior spaces, is stripped, and ends (if
nonempty) in `.`, `!` or `?`.  Each stage is the identity on such strings. -/

/-- No two adjacent whitespace characters. -/
def noAdjWs (l : List Char) : Prop :=
  l.Chain' fun a b => ¬(isPySpace a = true ∧ isPySpace b = true)

/-- The shape of `clean_hypothesis_text` output: only kept characters, all
whitespace is the single space and never adjacent, no leading or trailing
whitespace, and a sentence-final `.`, `!` or `?` when nonempty. -/
def cleanNormal (l : List Char) : Prop :=
  (∀ c ∈ l, keepChar c = true) ∧
  (∀ c ∈ l, isPySpace c = true → c = ' ') ∧
  noAdjWs l ∧
  (∀ c ∈ l.head?, isPySpace c = false) ∧
  (∀ c ∈ l.getLast?, c = '.' ∨ c = '!' ∨ c = '?')

/-! ## LLM client (`utils_llm.py`: `generate_hypothesis`, lines 50-136) -/

/-- Module-level Groq configuration; `none` models an unset environment
variable. -/
structure LlmCfg where
  apiKey : Option String
  apiUrl : Option String

/-- Python falsiness of an optional string (`not GROQ_API_KEY`): unset or
empty. -/
def pyFalsyStr : Option String → Bool
  | none => true
  | some s => s == ""

/-- What one HTTP POST attempt observes: a non-200 status (or a network
error reaching the generic `except`), or a 200 response whose extracted
`choices[0].message.content` is the given string. -/
inductive LlmResponse where
  | httpError (status : Nat)
  | content (s : String)

/-- Outcome of `generate_hypothesis`.  `configError` is the `ValueError` of
line 56; `apiError`/`emptyError` are the exceptions raised after the final
attempt; `implicitNone` is the implicit `None` return when the loop body
never runs (`max_retries = 0`). -/
inductive LlmOutcome where
  | ok (text : String)
  | configError
  | apiError (status : Nat)
  | emptyError
  | implicitNone
deriving DecidableEq

/-- Observable result of a `generate_hypothesis` call: outcome, number of
HTTP POSTs issued, and the backoff sleeps in order. -/
structure LlmRun where
  outcome : LlmOutcome
  httpCalls : Nat
  sleeps : List ℚ
deriving DecidableEq

/-- The retry loop of `generate_hypothesis` (lines 79-136): `a` is the
0-based attempt index.  A non-200 status or an empty extracted hypothesis
sleeps `1.0 * (attempt + 1)` and retries on a non-final attempt, and raises
on the final one; a nonempty hypothesis is cleaned with
`clean_hypothesis_text` and returned. -/
def llm_attempt_loop (env : Nat → LlmResponse) (maxRetries : Nat) (a : Nat) :
    Nat → LlmRun
  | 0 => ⟨.implicitNone, 0, []⟩
  | rem + 1 =>
    match env a with
    | .httpError st =>
        if a < maxRetries - 1 then
          let r := llm_attempt_loop env maxRetries (a + 1) rem
          ⟨r.outcome, r.httpCalls + 1, (1 : ℚ) * (a + 1) :: r.sleeps⟩
        else ⟨.apiError st, 1, []⟩
    | .content s =>
        if s = "" then
          if a < maxRetries - 1 then
            let r := llm_attempt_loop env maxRetries (a + 1) rem
            ⟨r.outcome, r.httpCalls + 1, (1 : ℚ) * (a + 1) :: r.sleeps⟩
          else ⟨.emptyError, 1, []⟩
        else ⟨.ok (clean_hypothesis_text s), 1, []⟩

/-- `generate_hypothesis(historical_node, modern_node, max_retries)`
(utils_llm.py lines 50-136).  Missing configuration is checked before the
loop (lines 55-56) and raises `ValueError` with no HTTP call and no sleep;
the prompt built from the two nodes does not influence control flow and is
not carried. -/
def generate_hypothesis (cfg : LlmCfg) (env : Nat → LlmResponse) (maxRetries : Nat) :
    LlmRun :=
  if pyFalsyStr cfg.apiKey || pyFalsyStr cfg.apiUrl then ⟨.configError, 0, []⟩
  else llm_attempt_loop env maxRetries 0 maxRetries

/-! ## PubMed article parsing (`utils_pubmed.py`: `parse_pubmed_xml`,
lines 227-363) -/

/-- One parsed article record (the dict built at lines 309-318). -/
structure Article where
  pmid : String
  title : String
  authors : List String
  abstract : String
  publication_date : String
  journal : String
  doi : Option String
  keywords : List String
deriving DecidableEq

/-- The fields of one `PubmedArticle` XML element as found by the
`article_elem.find`/`findall` calls: `none` means the element (or its text)
is absent.  `fails` models a Python exception raised while extracting this
element after the PMID assignment of line 245 (the per-article `except` of
lines 321-333). -/
structure ArticleRaw where
  pmid : Option String
  title : Option String
  abstract : Option String
  authors : List (Option String × Option String)
  journal : Option String
  pubYear : Option String
  pubMonth : Option String
  pubDay : Option String
  doi : Option String
  keywords : List (Option String)
  fails : Bool
deriving DecidableEq

/-- Python `str.zfill(2)`. -/
def zfill2 (s : String) : String :=
  if s.length ≥ 2 then s else String.mk (List.replicate (2 - s.length) '0') ++ s

/-- The month-name table of lines 281-285. -/
def monthMap (m : String) : Option String :=
  if m = "Jan" then some "01" else if m = "Feb" then some "02"
  else if m = "Mar" then some "03" else if m = "Apr" then some "04"
  else if m = "May" then some "05" else if m = "Jun" then some "06"
  else if m = "Jul" then some "07" else if m = "Aug" then some "08"
  else if m = "Sep" then some "09" else if m = "Oct" then some "10"
  else if m = "Nov" then some "11" else if m = "Dec" then some "12"
  else none

/-- Python `str.isdigit` on the ASCII range. -/
def pyIsDigit (s : String) : Bool :=
  s ≠ "" && s.toList.all fun c => '0' ≤ c && c ≤ '9'

/-- Publication-date extraction (lines 269-294): `"Unknown date"` without a
year; otherwise `YYYY-MM-DD` with the month name mapped to a number (or
`"01"` when not a number) and month/day zero-padded. -/
def pubDate (year month day : Option String) : String :=
  match year with
  | none => "Unknown date"
  | some y =>
      let m0 := month.getD "01"
      let d0 := day.getD "01"
      let m1 := match monthMap m0 with
        | some mm => mm
        | none => if pyIsDigit m0 then m0 else "01"
      y ++ "-" ++ zfill2 m1 ++ "-" ++ zfill2 d0

/-- Per-article field extraction (lines 243-318), with the source's default
strings for missing elements. -/
def extractArticle (r : ArticleRaw) : Article :=
  let authorNames := r.authors.filterMap fun ln =>
    match ln with
    | (some l, some f) => some (l ++ ", " ++ f)
    | (some l, none) => some l
    | (none, _) => none
  { pmid := r.pmid.getD "Unknown"
    title := r.title.getD "No title available"
    abstract := r.abstract.getD "No abstract available"
    authors := if authorNames = [] then ["Unknown authors"] else authorNames
    publication_date := pubDate r.pubYear r.pubMonth r.pubDay
    journal := r.journal.getD "Unknown journal"
    doi := r.doi
    keywords := r.keywords.filterMap fun k =>
      match k with
      | some s => if s = "" then none else some s
      | none => none }

/-- The placeholder record appended when extracting one article raises
(lines 324-333); its `pmid` is the value bound by line 245 for the current
element. -/
def placeholderArticle (pmid : String) : Article :=
  { pmid := pmid
    title := "Error parsing article"
    authors := ["Unknown"]
    abstract := "Failed to parse article data"
    publication_date := "Unknown"
    journal := "Unknown"
    doi := none
    keywords := [] }

/-- A fetched XML batch: either the root parse fails (`ET.ParseError`,
line 338), or it yields the list of `PubmedArticle` elements. -/
inductive XmlBatch where
  | malformed
  | wellFormed (elems : List ArticleRaw)

/-- `parse_pubmed_xml(xml_content, ids)` (utils_pubmed.py lines 227-363).
A malformed root yields one error record per requested id (lines 340-350);
in a well-formed batch, each element that raises during extraction yields a
placeholder record while every other element yields its extracted record. -/
def parse_pubmed_xml (batch : XmlBatch) (ids : List String) : List Article :=
  match batch with
  | .malformed =>
      ids.map fun pmid =>
        { pmid := pmid
          title := "XML parsing error"
          authors := ["Unknown"]
          abstract := "Failed to parse PubMed XML response"
          publication_date := "Unknown"
          journal := "Unknown"
          doi := none
          keywords := [] }
  | .wellFormed elems =>
      elems.map fun r =>
        if r.fails then placeholderArticle (r.pmid.getD "Unknown")
        else extractArticle r

/-! ## PubMed two-phase search (`utils_pubmed.py`: `search_pubmed_articles`,
lines 120-225) -/

/-- Dictionary lookup on a parsed JSON object (`d["k"]` / `d.get("k")`). -/
def Json.getKey (j : Json) (k : String) : Option Json :=
  match j with
  | .obj fs => fs.lookup k
  | _ => none

/-- The string carried by a JSON string value. -/
def Json.asString : Json → Option String
  | .str s => some s
  | _ => none

/-- The JSON image of one article dict, as `cache_set` serializes it. -/
def articleJson (a : Article) : Json :=
  .obj [("pmid", .str a.pmid), ("title", .str a.title),
    ("authors", .arr (a.authors.map .str)), ("abstract", .str a.abstract),
    ("publication_date", .str a.publication_date), ("journal", .str a.journal),
    ("doi", match a.doi with | none => .null | some d => .str d),
    ("keywords", .arr (a.keywords.map .str))]

/-- The JSON image of an article list. -/
def articlesJson (l : List Article) : Json := .arr (l.map articleJson)

/-- `f"pubmed:search:{query}:{page}:{per_page}"` (line 132), computed after
the `per_page` clamp of lines 128-130. -/
def search_cache_key (query : String) (page perPage : Nat) : String :=
  "pubmed:search:" ++ query ++ ":" ++ String.mk (natChars page) ++ ":" ++
    String.mk (natChars perPage)

/-- The value a `cache_get` call returns to its caller.  `cache_get` never
raises (`cache_get_loop_ok` proves the error branch is unreachable), so the
caller of line 135 always observes a plain value. -/
def cache_get_value (env : CacheEnv) (key : String) (maxRetries : Nat) : Json :=
  match cache_get env key maxRetries with
  | .ok v => v
  | .error _ => Json.null

/-- The two PubMed E-utilities requests of the two-phase search. -/
inductive Req where
  | esearch
  | efetch
deriving DecidableEq

/-- Exceptions `search_pubmed_articles` can raise: the `ValueError` of
line 126, the esearch non-200 of line 168, the missing `esearchresult` of
line 174, and the efetch non-200 of line 204. -/
inductive SearchErr where
  | emptyQuery
  | apiError (status : Nat)
  | badFormat
  | fetchError (status : Nat)
deriving DecidableEq

/-- Observable result of a `search_pubmed_articles` call: the returned value
(or raised error), the HTTP requests issued in order, and the `cache_set`
writes performed (key and value). -/
structure SearchRun where
  result : Except SearchErr Json
  requests : List Req
  cacheSets : List (String × Json)

/-- Environment for one `search_pubmed_articles` call: the cache
environment backing `cache_get`/`cache_set`, and the two HTTP responses. -/
structure SearchEnv where
  cacheEnv : CacheEnv
  esearchStatus : Nat
  esearchResult : Json
  efetchStatus : Nat
  efetchBatch : XmlBatch

/-- `idlist` extraction (line 176):
`search_result["esearchresult"].get("idlist", [])`, with the PMIDs read as
strings.  Yields `none` when `esearchresult` itself is absent (the raise of
line 174). -/
def esearch_ids (body : Json) : Option (List String) :=
  match body.getKey "esearchresult" with
  | none => none
  | some er =>
      match er.getKey "idlist" with
      | some (.arr xs) => some (xs.filterMap Json.asString)
      | _ => some []

/-- `search_pubmed_articles(query, page, per_page)` (utils_pubmed.py lines
120-225).  An empty (stripped) query raises `ValueError`; `per_page` is
clamped to 100; a truthy cached value is returned with no request; otherwise
one esearch request is issued (after the rate-limit sleep), an empty id list
caches and returns `[]` with no fetch, and a nonempty id list issues exactly
one efetch request, parses the XML, caches and returns the article list. -/
def search_pubmed_articles (env : SearchEnv) (query : String) (page perPage : Nat) :
    SearchRun :=
  if py_strip query.toList = [] then ⟨.error .emptyQuery, [], []⟩
  else
    let perPage := min perPage 100
    let cacheKey := search_cache_key query page perPage
    let cached := cache_get_value env.cacheEnv cacheKey 3
    if truthy cached then ⟨.ok cached, [], []⟩
    else if env.esearchStatus ≠ 200 then
      ⟨.error (.apiError env.esearchStatus), [.esearch], []⟩
    else
      match esearch_ids env.esearchResult with
      | none => ⟨.error .badFormat, [.esearch], []⟩
      | some ids =>
          if ids = [] then
            ⟨.ok (Json.arr []), [.esearch], [(cacheKey, Json.arr [])]⟩
          else if env.efetchStatus ≠ 200 then
            ⟨.error (.fetchError env.efetchStatus), [.esearch, .efetch], []⟩
          else
            let articles := parse_pubmed_xml env.efetchBatch ids
            ⟨.ok (articlesJson articles), [.esearch, .efetch],
              [(cacheKey, articlesJson articles)]⟩

theorem natChars_ne_nil (n : Nat) : natChars n ≠ [] := by
  unfold natChars
  split <;> simp

theorem append_ne_empty_of_left (s t : String) (h : s.data ≠ []) : s ++ t ≠ "" := by
  intro he
  apply h
  have hd := congrArg String.data he
  rw [String.data_append] at hd
  exact List.append_eq_nil.mp hd |>.1

theorem append_ne_empty_of_right (s t : String) (h : t.data ≠ []) : s ++ t ≠ "" := by
  intro he
  apply h
  have hd := congrArg String.data he
  rw [String.data_append] at hd
  exact List.append_eq_nil.mp hd |>.2

theorem append3_ne_empty_of_left (s t u : String) (h : s.data ≠ []) : s ++ t ++ u ≠ "" := by
  intro he
  apply h
  have hd := congrArg String.data he
  rw [String.data_append, String.data_append] at hd
  exact (List.append_eq_nil.mp (List.append_eq_nil.mp hd |>.1)).1

theorem dumps_ne_empty (v : Json) : dumps v ≠ "" := by
  cases v with
  | null => simp only [dumps]; decide
  | bool b => cases b <;> (simp only [dumps]; decide)
  | num n =>
      simp only [dumps]
      exact append_ne_empty_of_right _ _ (natChars_ne_nil n.natAbs)
  | str s =>
      simp only [dumps]
      exact append3_ne_empty_of_left _ _ _ (by decide)
  | arr xs =>
      simp only [dumps]
      exact append3_ne_empty_of_left _ _ _ (by decide)
  | obj fs =>
      simp only [dumps]
      exact append3_ne_empty_of_left _ _ _ (by decide)

theorem cache_get_loop_ok (env : CacheEnv) (key : String) (maxR : Nat) :
    ∀ rem a, ∃ v, cache_get_loop env key maxR a rem = .ok v := by
  intro rem
  induction rem with
  | zero => intro a; exact ⟨Json.null, rfl⟩
  | succ n ih =>
      intro a
      simp only [cache_get_loop]
      cases h : cache_get_attempt env key a with
      | ok v => exact ⟨v, rfl⟩
      | error e =>
          by_cases hlt : a < maxR - 1
          · simpa [hlt] using ih (a + 1)
          · exact ⟨Json.null, by simp [hlt]⟩

theorem cache_set_loop_ok (env : CacheEnv) (key : String) (v : Json) (maxR : Nat) :
    ∀ rem a, ∃ st, cache_set_loop env key v maxR a rem = (.ok (), st) := by
  intro rem
  induction rem with
  | zero => intro a; exact ⟨env.store, rfl⟩
  | succ n ih =>
      intro a
      simp only [cache_set_loop]
      cases h : cache_set_attempt env key v a with
      | ok st => exact ⟨st, rfl⟩
      | error e =>
          by_cases hlt : a < maxR - 1
          · simpa [hlt] using ih (a + 1)
          · exact ⟨env.store, by simp [hlt]⟩

/-! ## Hypothesis text cleanup (`utils_llm.py`: `clean_hypothesis_text`,
lines 22-48)

Each `re.sub` of the source is translated as a character-list transformation
with Python's leftmost, non-overlapping replacement semantics.  Python's `\w`
and `\s` classes are Unicode-aware; they are modeled on the ASCII range
(alphanumerics plus underscore, and the six ASCII whitespace characters),
which is exact for every character class the function manipulates
explicitly. -/

theorem length_dropWhile_le (p : Char → Bool) (l : List Char) :
    (l.dropWhile p).length ≤ l.length := by
  induction l with
  | nil => simp
  | cons a l ih =>
      rw [List.dropWhile_cons]
      split
      · exact Nat.le_trans ih (Nat.le_succ _)
      · exact Nat.le_refl _

theorem sub_bold_id (l : List Char) (h : '*' ∉ l) : sub_bold l = l := by
  induction l with
  | nil => simp [sub_bold]
  | cons c cs ih =>
      cases cs with
      | nil => simp [sub_bold]
      | cons c2 cs2 =>
          have hc : c ≠ '*' := fun he => h (he ▸ List.mem_cons_self c _)
          have htail : '*' ∉ c2 :: cs2 := fun hm => h (List.mem_cons_of_mem c hm)
          simp only [sub_bold]
          rw [if_neg (fun hand => hc hand.1)]
          exact congrArg (c :: ·) (ih htail)

theorem sub_italic_id (l : List Char) (h : '*' ∉ l) : sub_italic l = l := by
  induction l with
  | nil => simp [sub_italic]
  | cons c cs ih =>
      have hc : c ≠ '*' := fun he => h (he ▸ List.mem_cons_self c _)
      have htail : '*' ∉ cs := fun hm => h (List.mem_cons_of_mem c hm)
      simp only [sub_italic]
      rw [if_neg hc]
      exact congrArg (c :: ·) (ih htail)

theorem sub_code_id (l : List Char) (h : '\u0060' ∉ l) : sub_code l = l := by
  induction l with
  | nil => simp [sub_code]
  | cons c cs ih =>
      have hc : c ≠ '\u0060' := fun he => h (he ▸ List.mem_cons_self c _)
      have htail : '\u0060' ∉ cs := fun hm => h (List.mem_cons_of_mem c hm)
      simp only [sub_code]
      rw [if_neg hc]
      exact congrArg (c :: ·) (ih htail)

theorem sub_header_id (l : List Char) (h : '#' ∉ l) : sub_header l = l := by
  induction l with
  | nil => simp [sub_header]
  | cons c cs ih =>
      have hc : c ≠ '#' := fun he => h (he ▸ List.mem_cons_self c _)
      have htail : '#' ∉ cs := fun hm => h (List.mem_cons_of_mem c hm)
      simp only [sub_header]
      rw [if_neg hc]
      exact congrArg (c :: ·) (ih htail)

theorem sub_dnl_id (l : List Char) (h : '\n' ∉ l) : sub_dnl l = l := by
  induction l with
  | nil => simp [sub_dnl]
  | cons c cs ih =>
      have hc : c ≠ '\n' := fun he => h (he ▸ List.mem_cons_self c _)
      have htail : '\n' ∉ cs := fun hm => h (List.mem_cons_of_mem c hm)
      simp only [sub_dnl]
      rw [if_neg hc]
      exact congrArg (c :: ·) (ih htail)

theorem map_id_of_mem {f : Char → Char} (l : List Char) (h : ∀ c ∈ l, f c = c) :
    l.map f = l := by
  induction l with
  | nil => rfl
  | cons c cs ih =>
      rw [List.map_cons, h c (List.mem_cons_self c cs),
        ih fun d hd => h d (List.mem_cons_of_mem c hd)]

theorem normalize_dashes_id (l : List Char) (h : ∀ c ∈ l, keepChar c = true) :
    normalize_dashes l = l := by
  apply map_id_of_mem
  intro c hc
  have hk := h c hc
  rw [if_neg]
  intro hor
  rcases hor with h1 | h1 | h1 | h1 | h1 | h1 | h1 <;> subst h1 <;>
    exact absurd hk (by decide)

theorem normalize_quotes_id (l : List Char) (h : ∀ c ∈ l, keepChar c = true) :
    normalize_quotes l = l := by
  apply map_id_of_mem
  intro c hc
  have hk := h c hc
  rw [if_neg]
  intro hor
  rcases hor with h1 | h1 | h1 | h1 | h1 | h1 <;> subst h1 <;>
    exact absurd hk (by decide)

theorem remove_special_id (l : List Char) (h : ∀ c ∈ l, keepChar c = true) :
    remove_special l = l :=
  List.filter_eq_self.mpr h

theorem mem_collapse_ws (l : List Char) :
    ∀ c ∈ collapse_ws l, c = ' ' ∨ (c ∈ l ∧ isPySpace c = false) := by
  induction l with
  | nil => simp [collapse_ws]
  | cons a cs ih =>
      cases cs with
      | nil =>
          intro c hc
          by_cases hw : isPySpace a
          · simp [collapse_ws, hw] at hc
            exact Or.inl hc
          · simp [collapse_ws, hw] at hc
            subst hc
            exact Or.inr ⟨List.mem_cons_self _ _, by simpa using hw⟩
      | cons d rest =>
          intro c hc
          by_cases hwa : isPySpace a
          · by_cases hwd : isPySpace d
            · rw [show collapse_ws (a :: d :: rest) = collapse_ws (d :: rest) by
                simp [collapse_ws, hwa, hwd]] at hc
              rcases ih c hc with h1 | h1
              · exact Or.inl h1
              · exact Or.inr ⟨List.mem_cons_of_mem a h1.1, h1.2⟩
            · rw [show collapse_ws (a :: d :: rest) = ' ' :: collapse_ws (d :: rest) by
                simp [collapse_ws, hwa, hwd]] at hc
              rcases List.mem_cons.mp hc with h1 | h1
              · exact Or.inl h1
              · rcases ih c h1 with h2 | h2
                · exact Or.inl h2
                · exact Or.inr ⟨List.mem_cons_of_mem a h2.1, h2.2⟩
          · rw [show collapse_ws (a :: d :: rest) = a :: collapse_ws (d :: rest) by
                simp [collapse_ws, hwa]] at hc
            rcases List.mem_cons.mp hc with h1 | h1
            · subst h1
              exact Or.inr ⟨List.mem_cons_self c _, by simpa using hwa⟩
            · rcases ih c h1 with h2 | h2
              · exact Or.inl h2
              · exact Or.inr ⟨List.mem_cons_of_mem a h2.1, h2.2⟩

theorem collapse_ws_ws_space (l : List Char) :
    ∀ c ∈ collapse_ws l, isPySpace c = true → c = ' ' := by
  intro c hc hw
  rcases mem_collapse_ws l c hc with h1 | h1
  · exact h1
  · rw [h1.2] at hw
    cases hw

theorem collapse_ws_cons_of_not_ws (d : Char) (rest : List Char) (h : isPySpace d = false) :
    ∃ t, collapse_ws (d :: rest) = d :: t := by
  cases rest with
  | nil => exact ⟨[], by simp [collapse_ws, h]⟩
  | cons e rest2 => exact ⟨collapse_ws (e :: rest2), by simp [collapse_ws, h]⟩

theorem collapse_ws_no_adj (l : List Char) : noAdjWs (collapse_ws l) := by
  induction l with
  | nil => simp [collapse_ws, noAdjWs]
  | cons a cs ih =>
      cases cs with
      | nil =>
          by_cases hw : isPySpace a <;>
            simp [collapse_ws, hw, noAdjWs, List.chain'_singleton]
      | cons d rest =>
          by_cases hwa : isPySpace a
          · by_cases hwd : isPySpace d
            · rw [show collapse_ws (a :: d :: rest) = collapse_ws (d :: rest) by
                simp [collapse_ws, hwa, hwd]]
              exact ih
            · rw [show collapse_ws (a :: d :: rest) = ' ' :: collapse_ws (d :: rest) by
                simp [collapse_ws, hwa, hwd]]
              obtain ⟨t, ht⟩ := collapse_ws_cons_of_not_ws d rest (by simpa using hwd)
              rw [ht]
              refine List.chain'_cons'.mpr ⟨?_, ?_⟩
              · intro y hy
                rw [show (d :: t).head? = some d from rfl] at hy
                rw [Option.mem_def] at hy
                injection hy with hy
                subst hy
                intro hand
                rw [hand.2] at hwd
                exact hwd rfl
              · rw [← ht]; exact ih
          · rw [show collapse_ws (a :: d :: rest) = a :: collapse_ws (d :: rest) by
                simp [collapse_ws, hwa]]
            refine List.chain'_cons'.mpr ⟨?_, ih⟩
            intro y _
            intro hand
            exact hwa hand.1

theorem collapse_ws_id (l : List Char) (h1 : ∀ c ∈ l, isPySpace c = true → c = ' ')
    (h2 : noAdjWs l) : collapse_ws l = l := by
  induction l with
  | nil => rfl
  | cons a cs ih =>
      cases cs with
      | nil =>
          by_cases hw : isPySpace a
          · have := h1 a (List.mem_cons_self a _) hw
            simp [collapse_ws, hw, this]
          · simp [collapse_ws, hw]
      | cons d rest =>
          have htail1 : ∀ c ∈ d :: rest, isPySpace c = true → c = ' ' :=
            fun c hc => h1 c (List.mem_cons_of_mem a hc)
          have htail2 : noAdjWs (d :: rest) := h2.tail
          by_cases hwa : isPySpace a
          · have ha : a = ' ' := h1 a (List.mem_cons_self a _) hwa
            have hrel := (List.chain'_cons'.mp h2).1 d (by simp)
            have hwd : isPySpace d = false := by
              by_contra hcon
              exact hrel ⟨hwa, by simpa using hcon⟩
            rw [show collapse_ws (a :: d :: rest) = ' ' :: collapse_ws (d :: rest) by
                simp [collapse_ws, hwa, hwd]]
            rw [ih htail1 htail2, ha]
          · rw [show collapse_ws (a :: d :: rest) = a :: collapse_ws (d :: rest) by
                simp [collapse_ws, hwa]]
            rw [ih htail1 htail2]

theorem chain'_of_suffix {R : Char → Char → Prop} {l t : List Char}
    (h : List.Chain' R l) (hs : t <:+ l) : List.Chain' R t := by
  obtain ⟨pre, rfl⟩ := hs
  exact (List.chain'_append.mp h).2.1

theorem noAdjWs_reverse {l : List Char} (h : noAdjWs l) : noAdjWs l.reverse := by
  rw [noAdjWs, List.chain'_reverse]
  exact h.imp fun a b hab hand => hab ⟨hand.2, hand.1⟩

theorem noAdjWs_dropWhile {l : List Char} (p : Char → Bool) (h : noAdjWs l) :
    noAdjWs (l.dropWhile p) :=
  chain'_of_suffix h (List.dropWhile_suffix p)

theorem noAdjWs_py_strip {l : List Char} (h : noAdjWs l) : noAdjWs (py_strip l) :=
  noAdjWs_reverse (noAdjWs_dropWhile _ (noAdjWs_reverse (noAdjWs_dropWhile _ h)))

theorem mem_py_strip {l : List Char} {c : Char} (h : c ∈ py_strip l) : c ∈ l := by
  rw [py_strip, List.mem_reverse] at h
  have h2 := (List.dropWhile_sublist isPySpace).mem h
  rw [List.mem_reverse] at h2
  exact (List.dropWhile_sublist isPySpace).mem h2

theorem head?_dropWhile_false (p : Char → Bool) (l : List Char) :
    ∀ c ∈ (l.dropWhile p).head?, p c = false := by
  intro c hc
  have hmatch := List.head?_dropWhile_not p l
  rw [Option.mem_def] at hc
  rw [hc] at hmatch
  exact hmatch

theorem dropWhile_eq_self_of_head (p : Char → Bool) (l : List Char)
    (h : ∀ c ∈ l.head?, p c = false) : l.dropWhile p = l := by
  cases l with
  | nil => rfl
  | cons a t =>
      rw [List.dropWhile_cons, if_neg]
      have := h a (by simp)
      simp [this]

theorem getLast?_of_suffix {t l : List Char} (hs : t <:+ l) {c : Char}
    (hc : t.getLast? = some c) : l.getLast? = some c := by
  obtain ⟨pre, rfl⟩ := hs
  rw [List.getLast?_append, hc]
  rfl

theorem py_strip_last_not_ws (l : List Char) :
    ∀ c ∈ (py_strip l).getLast?, isPySpace c = false := by
  intro c hc
  rw [py_strip, List.getLast?_reverse] at hc
  exact head?_dropWhile_false isPySpace _ c hc

theorem py_strip_head_not_ws (l : List Char) :
    ∀ c ∈ (py_strip l).head?, isPySpace c = false := by
  intro c hc
  rw [py_strip, List.head?_reverse, Option.mem_def] at hc
  have h2 : (l.dropWhile isPySpace).reverse.getLast? = some c :=
    getLast?_of_suffix (List.dropWhile_suffix isPySpace) hc
  rw [List.getLast?_reverse] at h2
  exact head?_dropWhile_false isPySpace l c h2

theorem py_strip_id (l : List Char) (h1 : ∀ c ∈ l.head?, isPySpace c = false)
    (h2 : ∀ c ∈ l.getLast?, isPySpace c = false) : py_strip l = l := by
  rw [py_strip, dropWhile_eq_self_of_head _ _ h1]
  rw [dropWhile_eq_self_of_head _ _ (by rw [List.head?_reverse]; exact h2)]
  exact List.reverse_reverse l

theorem ensure_period_id (l : List Char)
    (h : ∀ c ∈ l.getLast?, c = '.' ∨ c = '!' ∨ c = '?') : ensure_period l = l := by
  rw [ensure_period]
  cases hl : l.getLast? with
  | none => rfl
  | some c =>
      rcases h c (by rw [hl]; rfl) with h1 | h1 | h1 <;> subst h1 <;> simp

theorem ensure_period_cases (l : List Char) :
    (ensure_period l = l ∧ ∀ c ∈ l.getLast?, c = '.' ∨ c = '!' ∨ c = '?') ∨
    (l ≠ [] ∧ ensure_period l = l ++ ['.']) := by
  rw [ensure_period]
  cases hl : l.getLast? with
  | none =>
      left
      refine ⟨rfl, ?_⟩
      intro c hc
      exact absurd hc (by simp)
  | some c =>
      by_cases hc : c = '.' || c = '!' || c = '?'
      · left
        refine ⟨by simp [hc], ?_⟩
        intro d hd
        rw [Option.mem_def] at hd
        injection hd with hd
        subst hd
        have := by simpa using hc
        tauto
      · right
        refine ⟨?_, by simp [hc]⟩
        intro he
        subst he
        simp at hl

theorem clean_output_normal (l : List Char) :
    cleanNormal (clean_hypothesis_text_list l) := by
  rw [clean_hypothesis_text_list]
  generalize normalize_quotes (normalize_dashes (sub_header (sub_code (sub_italic
    (sub_bold l))))) = X
  set A := remove_special X with hA
  set B := collapse_ws A with hB
  have hA_keep : ∀ c ∈ A, keepChar c = true := by
    intro c hc
    rw [hA, remove_special] at hc
    exact (List.mem_filter.mp hc).2
  have hB_keep : ∀ c ∈ B, keepChar c = true := by
    intro c hc
    rcases mem_collapse_ws A c hc with h1 | h1
    · subst h1; decide
    · exact hA_keep c h1.1
  have hB_ws : ∀ c ∈ B, isPySpace c = true → c = ' ' := collapse_ws_ws_space A
  have hB_adj : noAdjWs B := collapse_ws_no_adj A
  have hB_nl : '\n' ∉ B := by
    intro hm
    have := hB_ws '\n' hm (by decide)
    exact absurd this (by decide)
  rw [sub_dnl_id B hB_nl]
  set C := py_strip B with hC
  have hC_keep : ∀ c ∈ C, keepChar c = true := fun c hc => hB_keep c (mem_py_strip hc)
  have hC_ws : ∀ c ∈ C, isPySpace c = true → c = ' ' :=
    fun c hc => hB_ws c (mem_py_strip hc)
  have hC_adj : noAdjWs C := noAdjWs_py_strip hB_adj
  have hC_head : ∀ c ∈ C.head?, isPySpace c = false := py_strip_head_not_ws B
  rcases ensure_period_cases C with ⟨heq, hlast⟩ | ⟨hne, heq⟩
  · rw [heq]
    exact ⟨hC_keep, hC_ws, hC_adj, hC_head, hlast⟩
  · rw [heq]
    refine ⟨?_, ?_, ?_, ?_, ?_⟩
    · intro c hc
      rcases List.mem_append.mp hc with h1 | h1
      · exact hC_keep c h1
      · rw [List.mem_singleton.mp h1]; decide
    · intro c hc hw
      rcases List.mem_append.mp hc with h1 | h1
      · exact hC_ws c h1 hw
      · rw [List.mem_singleton.mp h1] at hw; cases hw
    · refine List.chain'_append.mpr ⟨hC_adj, List.chain'_singleton '.', ?_⟩
      intro x _ y hy
      rw [show (['.'] : List Char).head? = some '.' from rfl, Option.mem_def] at hy
      injection hy with hy
      subst hy
      intro hand
      exact absurd hand.2 (by decide)
    · intro c hc
      rw [List.head?_append_of_ne_nil C hne] at hc
      exact hC_head c hc
    · intro c hc
      rw [List.getLast?_concat, Option.mem_def] at hc
      injection hc with hc
      subst hc
      exact Or.inl rfl

theorem clean_id_of_normal (l : List Char) (h : cleanNormal l) :
    clean_hypothesis_text_list l = l := by
  obtain ⟨hkeep, hws, hadj, hhead, hlast⟩ := h
  have hstar : '*' ∉ l := fun hm => absurd (hkeep _ hm) (by decide)
  have hbq : '\u0060' ∉ l := fun hm => absurd (hkeep _ hm) (by decide)
  have hhash : '#' ∉ l := fun hm => absurd (hkeep _ hm) (by decide)
  have hnl : '\n' ∉ l := fun hm => absurd (hws _ hm (by decide)) (by decide)
  have hlastws : ∀ c ∈ l.getLast?, isPySpace c = false := by
    intro c hc
    rcases hlast c hc with h1 | h1 | h1 <;> subst h1 <;> decide
  rw [clean_hypothesis_text_list, sub_bold_id _ hstar, sub_italic_id _ hstar,
    sub_code_id _ hbq, sub_header_id _ hhash, normalize_dashes_id _ hkeep,
    normalize_quotes_id _ hkeep, remove_special_id _ hkeep,
    collapse_ws_id _ hws hadj, sub_dnl_id _ hnl, py_strip_id _ hhead hlastws,
    ensure_period_id _ hlast]

/-- C7: `clean_hypothesis_text` is a pure function of its input string (it is
a Lean function of the string alone) and is idempotent: normalizing
already-normalized text is a no-op. -/
theorem clean_hypothesis_text_idempotent (s : String) :
    clean_hypothesis_text (clean_hypothesis_text s) = clean_hypothesis_text s := by
  simp only [clean_hypothesis_text]
  have ht : (String.mk (clean_hypothesis_text_list s.toList)).toList =
      clean_hypothesis_text_list s.toList := rfl
  rw [ht]
  exact congrArg String.mk (clean_id_of_normal _ (clean_output_normal s.toList))

/-! ### Retry-loop counting lemmas -/

theorem graph_attempt_loop_all_fail (env : GraphEnv) (d : ℚ) (maxR : Nat)
    (hu : env.cfg.uri ≠ none) (hp : env.cfg.password ≠ none)
    (hfail : ∀ a, env.connectOk a = false) :
    ∀ rem a, 1 ≤ rem → a + rem = maxR + 1 →
      ∃ s : List ℚ, graph_attempt_loop env d maxR a rem = ⟨none, none, rem, rem, s⟩ ∧
        s.length = rem - 1 := by
  intro rem
  induction rem with
  | zero => intro a h1 _; omega
  | succ n ih =>
      intro a _ h2
      simp only [graph_attempt_loop]
      rw [if_neg (by intro hor; rcases hor with h | h; exact hu h; exact hp h)]
      rw [hfail a]
      simp only [Bool.false_eq_true, if_false]
      cases n with
      | zero =>
          have : ¬ a < maxR := by omega
          rw [if_neg this]
          exact ⟨[], rfl, rfl⟩
      | succ m =>
          have hlt : a < maxR := by omega
          rw [if_pos hlt]
          obtain ⟨s, hs, hlen⟩ := ih (a + 1) (by omega) (by omega)
          refine ⟨d * 2 ^ (a - 1) :: s, ?_, ?_⟩
          · rw [hs]
          · simp [hlen]

theorem graph_attempt_loop_no_config (env : GraphEnv) (d : ℚ) (maxR : Nat)
    (hcfg : env.cfg.uri = none ∨ env.cfg.password = none) :
    ∀ rem a, 1 ≤ rem → a + rem = maxR + 1 →
      ∃ s : List ℚ, graph_attempt_loop env d maxR a rem = ⟨none, none, 0, rem, s⟩ ∧
        s.length = rem - 1 := by
  intro rem
  induction rem with
  | zero => intro a h1 _; omega
  | succ n ih =>
      intro a _ h2
      simp only [graph_attempt_loop]
      rw [if_pos hcfg]
      cases n with
      | zero =>
          have : ¬ a < maxR := by omega
          rw [if_neg this]
          exact ⟨[], rfl, rfl⟩
      | succ m =>
          have hlt : a < maxR := by omega
          rw [if_pos hlt]
          obtain ⟨s, hs, hlen⟩ := ih (a + 1) (by omega) (by omega)
          refine ⟨d * 2 ^ (a - 1) :: s, ?_, ?_⟩
          · rw [hs]
          · simp [hlen]

theorem redis_attempt_loop_all_fail (env : RedisEnv) (d : ℚ) (maxR : Nat)
    (hfail : ∀ h, env.pingOk h = false) :
    ∀ rem fresh a, 1 ≤ rem → a + rem = maxR →
      ∃ s : List ℚ, redis_attempt_loop env d maxR none fresh a rem =
        ⟨.error (fresh + (rem - 1)), none, rem, rem, s⟩ ∧ s.length = rem - 1 := by
  intro rem
  induction rem with
  | zero => intro fresh a h1 _; omega
  | succ n ih =>
      intro fresh a _ h2
      simp only [redis_attempt_loop]
      rw [hfail fresh]
      simp only [Bool.false_eq_true, if_false]
      cases n with
      | zero =>
          have : ¬ a < maxR - 1 := by omega
          rw [if_neg this]
          exact ⟨[], rfl, rfl⟩
      | succ m =>
          have hlt : a < maxR - 1 := by omega
          rw [if_pos hlt]
          obtain ⟨s, hs, hlen⟩ := ih (fresh + 1) (a + 1) (by omega) (by omega)
          refine ⟨d * (a + 1) :: s, ?_, ?_⟩
          · rw [hs]
            have he : fresh + 1 + (m + 1 - 1) = fresh + (m + 1 + 1 - 1) := by omega
            rw [he]
          · simp [hlen]

/-! ## Claim theorems -/

/-- C1: the claim says that for every service kind a healthy existing handle
is reused with zero new-connection attempts.  `get_redis_with_retry` does
behave that way (second conjunct: existing handle `7` whose ping succeeds is
returned with zero `Redis.from_url` calls).  `get_driver_with_retry` does
not: line 45 runs `driver = None` before the reuse check of lines 48-56, so
even with an existing handle whose probe would succeed the call dials a new
connection (`connectCalls = 1`, a fresh handle is returned) — the reuse
branch is dead code, contradicting the source's own `Reuse healthy driver`
comment and its `Reusing existing healthy Neo4j connection` log line. -/
theorem graph_reuse_is_dead_code :
    get_driver_with_retry
      ⟨⟨some "neo4j+s://db", "neo4j", some "pw"⟩, some 7, fun _ => true, fun _ => true⟩
      3 1 = ⟨some 1, some 1, 1, 1, []⟩ ∧
    get_redis_with_retry ⟨some 7, fun _ => true⟩ 3 1 =
      ⟨.ok (some 7), some 7, 0, 1, []⟩ := by
  exact ⟨rfl, rfl⟩

/-- C2 counterexample: with `NEO4J_URI` unset, `get_driver_with_retry` does
not fail immediately with a configuration error distinct from a connection
error; it consumes all three loop iterations, sleeps the backoff delays 1
and 2 between them, and finally returns `None` — the `ValueError` of line 61
is raised inside the loop and swallowed by the generic `except` like any
connection failure. -/
theorem graph_missing_config_consumes_retries :
    get_driver_with_retry ⟨⟨none, "neo4j", some "pw"⟩, none, fun _ => true, fun _ => true⟩
      3 1 = ⟨none, none, 0, 3, [1, 2]⟩ := by
  simp [get_driver_with_retry, graph_attempt_loop] <;> norm_num

/-- C2 (amended): `generate_hypothesis` validates the Groq configuration
before its first attempt and fails immediately (`ValueError`, zero HTTP
calls, zero sleeps).  `get_driver_with_retry` validates inside the retry
loop: missing `NEO4J_URI`/`NEO4J_PASSWORD` consumes all `max_retries` loop
iterations with backoff sleeps between them, performs zero driver-creation
calls, and ends in a `None` return rather than a distinct configuration
error. -/
theorem config_validation_amended :
    (∀ (cfg : LlmCfg) (env : Nat → LlmResponse) (maxR : Nat),
        pyFalsyStr cfg.apiKey = true ∨ pyFalsyStr cfg.apiUrl = true →
        generate_hypothesis cfg env maxR = ⟨.configError, 0, []⟩) ∧
    (∀ (env : GraphEnv) (d : ℚ) (maxR : Nat),
        env.cfg.uri = none ∨ env.cfg.password = none → 1 ≤ maxR →
        ∃ s : List ℚ, get_driver_with_retry env maxR d = ⟨none, none, 0, maxR, s⟩ ∧
          s.length = maxR - 1) := by
  constructor
  · intro cfg env maxR h
    rw [generate_hypothesis, if_pos]
    rcases h with h | h <;> simp [h]
  · intro env d maxR hcfg hmax
    rw [get_driver_with_retry]
    exact graph_attempt_loop_no_config env d maxR hcfg maxR 1 hmax (by omega)

theorem config_validation_amended_witness :
    (pyFalsyStr (none : Option String) = true ∨ pyFalsyStr (some "u") = true) ∧
    generate_hypothesis ⟨none, some "u"⟩ (fun _ => .content "h") 3 =
      ⟨.configError, 0, []⟩ ∧
    ∃ s : List ℚ,
      get_driver_with_retry ⟨⟨none, "neo4j", some "pw"⟩, none, fun _ => true, fun _ => true⟩
        3 1 = ⟨none, none, 0, 3, s⟩ ∧ s.length = 2 :=
  ⟨Or.inl rfl,
   config_validation_amended.1 ⟨none, some "u"⟩ (fun _ => .content "h") 3 (Or.inl rfl),
   config_validation_amended.2
     ⟨⟨none, "neo4j", some "pw"⟩, none, fun _ => true, fun _ => true⟩ 1 3
     (Or.inl rfl) (by omega)⟩

/-- C3 counterexample: with healthy configuration and every connection
attempt failing, `get_driver_with_retry(3, 1.0)` performs exactly three
establishment attempts and leaves the slot empty, but then **returns
`None`** (line 91) — a normal return, not a raised `ConnectionError`
carrying the last failure.  The exception only appears later, when
`execute_query_with_retry` reacts to the `None`. -/
theorem graph_exhaustion_returns_none :
    get_driver_with_retry
      ⟨⟨some "neo4j+s://db", "neo4j", some "pw"⟩, none, fun _ => true, fun _ => false⟩
      3 1 = ⟨none, none, 3, 3, [1, 2]⟩ := by
  simp [get_driver_with_retry, graph_attempt_loop] <;> norm_num

/-- C3 (amended): after `max_retries` consecutive failures,
`get_redis_with_retry` performs exactly `max_retries` establishment attempts
and re-raises the last underlying ping failure with the process-wide slot
left empty; `get_driver_with_retry` performs exactly `max_retries` driver
creations and also leaves the slot empty, but returns `None` instead of
raising. -/
theorem exhaustion_amended :
    (∀ (env : RedisEnv) (d : ℚ) (maxR : Nat), 1 ≤ maxR → env.initialRedis = none →
        (∀ h, env.pingOk h = false) →
        ∃ s : List ℚ, get_redis_with_retry env maxR d =
          ⟨.error (1000 + (maxR - 1)), none, maxR, maxR, s⟩ ∧ s.length = maxR - 1) ∧
    (∀ (env : GraphEnv) (d : ℚ) (maxR : Nat), 1 ≤ maxR →
        env.cfg.uri ≠ none → env.cfg.password ≠ none →
        (∀ a, env.connectOk a = false) →
        ∃ s : List ℚ, get_driver_with_retry env maxR d = ⟨none, none, maxR, maxR, s⟩ ∧
          s.length = maxR - 1) := by
  constructor
  · intro env d maxR hmax hinit hfail
    rw [get_redis_with_retry, hinit]
    exact redis_attempt_loop_all_fail env d maxR hfail maxR 1000 0 hmax (by omega)
  · intro env d maxR hmax hu hp hfail
    rw [get_driver_with_retry]
    exact graph_attempt_loop_all_fail env d maxR hu hp hfail maxR 1 hmax (by omega)

theorem exhaustion_amended_witness :
    (∀ h : Nat, (fun _ : Nat => false) h = false) ∧
    (∃ s : List ℚ, get_redis_with_retry ⟨none, fun _ => false⟩ 3 1 =
      ⟨.error 1002, none, 3, 3, s⟩ ∧ s.length = 2) ∧
    (∃ s : List ℚ,
      get_driver_with_retry
        ⟨⟨some "neo4j+s://db", "neo4j", some "pw"⟩, none, fun _ => true, fun _ => false⟩
        3 1 = ⟨none, none, 3, 3, s⟩ ∧ s.length = 2) :=
  ⟨fun _ => rfl,
   exhaustion_amended.1 ⟨none, fun _ => false⟩ 1 3 (by omega) rfl (fun _ => rfl),
   exhaustion_amended.2
     ⟨⟨some "neo4j+s://db", "neo4j", some "pw"⟩, none, fun _ => true, fun _ => false⟩ 1 3
     (by omega) (by simp) (by simp) (fun _ => rfl)⟩

/-- C4: the claim says both retry loops wait
`base_delay * backoff_multiplier ** (attempt - 1)` (exponential backoff)
after each failed non-final attempt.  `get_driver_with_retry` does (second
conjunct: delays 1, 2, 4 with `max_retries = 4`).  `get_redis_with_retry`
does not: its line 59 waits `retry_delay * (attempt + 1)` — linear — despite
the adjacent `# Exponential backoff` comment, giving delays 1, 2, 3 with
`max_retries = 4`, and 1, 2, 3 is not of the form `b * m ** (attempt - 1)`
for any base and multiplier (third conjunct). -/
theorem redis_backoff_linear_despite_comment :
    (get_redis_with_retry ⟨none, fun _ => false⟩ 4 1).sleeps = [1, 2, 3] ∧
    (get_driver_with_retry
      ⟨⟨some "neo4j+s://db", "neo4j", some "pw"⟩, none, fun _ => true, fun _ => false⟩
      4 1).sleeps = [1, 2, 4] ∧
    ¬ ∃ b m : ℚ, [(1 : ℚ), 2, 3] = [b * m ^ (0 : ℕ), b * m ^ (1 : ℕ), b * m ^ (2 : ℕ)] := by
  refine ⟨by simp [get_redis_with_retry, redis_attempt_loop] <;> norm_num,
    by simp [get_driver_with_retry, graph_attempt_loop] <;> norm_num, ?_⟩
  rintro ⟨b, m, h⟩
  simp only [List.cons.injEq, and_true] at h
  obtain ⟨h1, h2, h3⟩ := h
  rw [pow_zero, mul_one] at h1
  rw [pow_one] at h2
  rw [pow_two] at h3
  subst h1
  nlinarith [h2, h3]

/-- C5 counterexample: for `v = null`, the stored string `"null"` is truthy
at line 101, so `cache_get` dutifully returns `json.loads("null") = None` —
but `None` is exactly the Absent marker `cache_get` returns on a miss
(second conjunct: the same call against an empty store).  A cached null is
therefore returned *as* Absent, indistinguishable from a miss, contradicting
the claim's "returns a value ..., not Absent" for this `v`. -/
theorem cache_null_round_trip_is_absent :
    cache_get ⟨(cache_set ⟨fun _ => none, fun _ => true⟩ "k" Json.null 3).2,
      fun _ => true⟩ "k" 3 = .ok Json.null ∧
    cache_get ⟨fun _ => none, fun _ => true⟩ "k" 3 = .ok Json.null := by
  constructor <;>
    simp [cache_get, cache_get_loop, cache_get_attempt, cache_set, cache_set_loop,
      cache_set_attempt, storeSet, dumps]

/-- C5 (amended): for every key and every JSON-serializable `v`, a successful
`cache_get(key)` immediately following a successful `cache_set(key, v, ttl)`
(within the TTL) returns exactly the serialization round-trip of `v` — for
every `v`, including the falsy ones, since the truthiness test of line 101 is
on the serialized string, which is never empty.  For `v = null`, however, the
returned value `None` coincides with the Absent marker, so only for that `v`
the caller cannot tell the hit from a miss (see the counterexample). -/
theorem cache_set_get_round_trip (st : Store) (ok1 ok2 : Nat → Bool) (key : String)
    (v : Json) (h1 : ok1 0 = true) (h2 : ok2 0 = true) :
    cache_get ⟨(cache_set ⟨st, ok1⟩ key v 3).2, ok2⟩ key 3 = .ok v := by
  have hset : (cache_set ⟨st, ok1⟩ key v 3).2 = storeSet st key v := by
    simp [cache_set, cache_set_loop, cache_set_attempt, h1]
  have hstore : storeSet st key v key = some v := by simp [storeSet]
  rw [hset]
  have hattempt : cache_get_attempt ⟨storeSet st key v, ok2⟩ key 0 = .ok v := by
    simp only [cache_get_attempt, h2, if_true]
    rw [hstore]
    simp [dumps_ne_empty v]
  simp [cache_get, cache_get_loop, hattempt]

theorem cache_set_get_round_trip_witness :
    ((fun _ : Nat => true) 0 = true) ∧
    cache_get ⟨(cache_set ⟨fun _ => none, fun _ => true⟩ "k" (Json.str "x") 3).2,
      fun _ => true⟩ "k" 3 = .ok (Json.str "x") :=
  ⟨rfl, cache_set_get_round_trip (fun _ => none) (fun _ => true) (fun _ => true)
    "k" (Json.str "x") rfl rfl⟩

/-- C6: on any underlying cache failure — however the per-attempt Redis
acquisition and command outcomes fall out — `cache_get` returns normally
with some value (`None` on exhaustion) and `cache_set` returns normally;
neither ever lets an exception escape to the caller. -/
theorem cache_failures_never_propagate :
    (∀ (env : CacheEnv) (key : String) (maxR : Nat),
      ∃ v, cache_get env key maxR = .ok v) ∧
    (∀ (env : CacheEnv) (key : String) (v : Json) (maxR : Nat),
      ∃ st, cache_set env key v maxR = (.ok (), st)) :=
  ⟨fun env key maxR => cache_get_loop_ok env key maxR maxR 0,
   fun env key v maxR => cache_set_loop_ok env key v maxR maxR 0⟩

/-- C8: for a non-empty query missing the cache, with a 200 esearch response
carrying an `esearchresult`, `search_pubmed_articles` issues exactly one
esearch request; it issues exactly one efetch request if and only if the
returned id list is non-empty; and an empty id list short-circuits: the
result is `[]`, it is cached under the search key, and no fetch request is
made. -/
theorem search_two_phase (env : SearchEnv) (query : String) (page perPage : Nat)
    (hq : py_strip query.toList ≠ [])
    (hmiss : truthy (cache_get_value env.cacheEnv
      (search_cache_key query page (min perPage 100)) 3) = false)
    (hok : env.esearchStatus = 200)
    (ids : List String) (hids : esearch_ids env.esearchResult = some ids) :
    (search_pubmed_articles env query page perPage).requests.count .esearch = 1 ∧
    (search_pubmed_articles env query page perPage).requests.count .efetch =
      (if ids = [] then 0 else 1) ∧
    (ids = [] →
      (search_pubmed_articles env query page perPage).result = .ok (Json.arr []) ∧
      (search_pubmed_articles env query page perPage).cacheSets =
        [(search_cache_key query page (min perPage 100), Json.arr [])]) := by
  rw [search_pubmed_articles, if_neg hq]
  simp only []
  rw [if_neg (by rw [hmiss]; exact Bool.false_ne_true)]
  rw [if_neg (by rw [hok]; simp)]
  simp only [hids]
  by_cases h0 : ids = []
  · rw [if_pos h0, if_pos h0]
    exact ⟨rfl, rfl, fun _ => ⟨rfl, rfl⟩⟩
  · rw [if_neg h0, if_neg h0]
    by_cases hf : env.efetchStatus ≠ 200
    · rw [if_pos hf]
      exact ⟨rfl, rfl, fun h => absurd h h0⟩
    · rw [if_neg hf]
      exact ⟨rfl, rfl, fun h => absurd h h0⟩

theorem search_two_phase_witness :
    py_strip ("test".toList) ≠ [] ∧
    ((search_pubmed_articles
      ⟨⟨fun _ => none, fun _ => true⟩, 200,
        Json.obj [("esearchresult", Json.obj [("idlist", Json.arr [])])], 200,
        .wellFormed []⟩ "test" 1 10).requests.count .esearch = 1 ∧
     (search_pubmed_articles
      ⟨⟨fun _ => none, fun _ => true⟩, 200,
        Json.obj [("esearchresult", Json.obj [("idlist", Json.arr [])])], 200,
        .wellFormed []⟩ "test" 1 10).requests.count .efetch =
        (if ([] : List String) = [] then 0 else 1) ∧
     (([] : List String) = [] →
       (search_pubmed_articles
        ⟨⟨fun _ => none, fun _ => true⟩, 200,
          Json.obj [("esearchresult", Json.obj [("idlist", Json.arr [])])], 200,
          .wellFormed []⟩ "test" 1 10).result = .ok (Json.arr []) ∧
       (search_pubmed_articles
        ⟨⟨fun _ => none, fun _ => true⟩, 200,
          Json.obj [("esearchresult", Json.obj [("idlist", Json.arr [])])], 200,
          .wellFormed []⟩ "test" 1 10).cacheSets =
         [(search_cache_key "test" 1 (min 10 100), Json.arr [])])) :=
  ⟨by decide,
   search_two_phase
    ⟨⟨fun _ => none, fun _ => true⟩, 200,
      Json.obj [("esearchresult", Json.obj [("idlist", Json.arr [])])], 200,
      .wellFormed []⟩ "test" 1 10 (by decide) rfl rfl [] rfl⟩

/-- C9: in a well-formed batch in which the `i`-th article element raises
during extraction, `parse_pubmed_xml` emits a placeholder record at position
`i` and still emits one record per element of the batch, with every
non-failing element parsed normally — a single malformed article never
aborts the batch. -/
theorem parse_isolates_single_failure (elems : List ArticleRaw) (ids : List String)
    (i : Nat) (hi : i < elems.length) (hfail : (elems.get ⟨i, hi⟩).fails = true) :
    (parse_pubmed_xml (.wellFormed elems) ids).length = elems.length ∧
    (parse_pubmed_xml (.wellFormed elems) ids)[i]? =
      some (placeholderArticle ((elems.get ⟨i, hi⟩).pmid.getD "Unknown")) ∧
    (∀ j (hj : j < elems.length), (elems.get ⟨j, hj⟩).fails = false →
      (parse_pubmed_xml (.wellFormed elems) ids)[j]? =
        some (extractArticle (elems.get ⟨j, hj⟩))) := by
  refine ⟨by simp [parse_pubmed_xml], ?_, ?_⟩
  · simp only [parse_pubmed_xml]
    rw [List.getElem?_map, List.getElem?_eq_getElem hi]
    rw [List.get_eq_getElem] at hfail
    simp [List.get_eq_getElem, hfail]
  · intro j hj hok
    simp only [parse_pubmed_xml]
    rw [List.getElem?_map, List.getElem?_eq_getElem hj]
    rw [List.get_eq_getElem] at hok
    simp [List.get_eq_getElem, hok]

theorem parse_isolates_single_failure_witness :
    ((([⟨some "1", some "T", some "A", [(some "Doe", some "J")], some "Jrn",
        some "2020", some "Jan", none, some "10.1/x", [some "kw"], false⟩,
      ⟨some "2", none, none, [], none, none, none, none, none, [], true⟩] :
        List ArticleRaw).get ⟨1, by decide⟩).fails = true) ∧
    (parse_pubmed_xml (.wellFormed
      [⟨some "1", some "T", some "A", [(some "Doe", some "J")], some "Jrn",
        some "2020", some "Jan", none, some "10.1/x", [some "kw"], false⟩,
      ⟨some "2", none, none, [], none, none, none, none, none, [], true⟩]) ["1", "2"]).length
      = 2 ∧
    (parse_pubmed_xml (.wellFormed
      [⟨some "1", some "T", some "A", [(some "Doe", some "J")], some "Jrn",
        some "2020", some "Jan", none, some "10.1/x", [some "kw"], false⟩,
      ⟨some "2", none, none, [], none, none, none, none, none, [], true⟩]) ["1", "2"])[1]?
      = some (placeholderArticle "2") ∧
    (parse_pubmed_xml (.wellFormed
      [⟨some "1", some "T", some "A", [(some "Doe", some "J")], some "Jrn",
        some "2020", some "Jan", none, some "10.1/x", [some "kw"], false⟩,
      ⟨some "2", none, none, [], none, none, none, none, none, [], true⟩]) ["1", "2"])[0]?
      = some (extractArticle ⟨some "1", some "T", some "A", [(some "Doe", some "J")],
          some "Jrn", some "2020", some "Jan", none, some "10.1/x", [some "kw"], false⟩) := by
  have h := parse_isolates_single_failure
    [⟨some "1", some "T", some "A", [(some "Doe", some "J")], some "Jrn",
        some "2020", some "Jan", none, some "10.1/x", [some "kw"], false⟩,
      ⟨some "2", none, none, [], none, none, none, none, none, [], true⟩]
    ["1", "2"] 1 (by decide) (by decide)
  exact ⟨by decide, h.1, h.2.1, h.2.2 0 (by decide) (by decide)⟩

/-- C10: whenever the cached value under the search key is JSON-falsy (`[]`,
`null`, `0`, `""`, ...), the `if cached_results:` test of line 136 treats the
lookup as a miss: for a non-empty query, `search_pubmed_articles` issues the
esearch request (one network search) instead of returning the cached value —
in particular a cached empty result list is never served as a cache hit. -/
theorem falsy_cached_value_is_miss (env : SearchEnv) (query : String) (page perPage : Nat)
    (hq : py_strip query.toList ≠ [])
    (hfalsy : truthy (cache_get_value env.cacheEnv
      (search_cache_key query page (min perPage 100)) 3) = false) :
    (search_pubmed_articles env query page perPage).requests.count .esearch = 1 := by
  rw [search_pubmed_articles, if_neg hq]
  simp only []
  rw [if_neg (by rw [hfalsy]; exact Bool.false_ne_true)]
  by_cases hs : env.esearchStatus ≠ 200
  · rw [if_pos hs]
    rfl
  · rw [if_neg hs]
    cases hids : esearch_ids env.esearchResult with
    | none => rfl
    | some ids =>
        simp only []
        by_cases h0 : ids = []
        · rw [if_pos h0]
          rfl
        · rw [if_neg h0]
          by_cases hf : env.efetchStatus ≠ 200
          · rw [if_pos hf]
            rfl
          · rw [if_neg hf]
            rfl

theorem falsy_cached_value_is_miss_witness :
    truthy (cache_get_value
      ⟨fun k => if k = search_cache_key "test" 1 (min 10 100) then some (Json.arr [])
          else none, fun _ => true⟩
      (search_cache_key "test" 1 (min 10 100)) 3) = false ∧
    (search_pubmed_articles
      ⟨⟨fun k => if k = search_cache_key "test" 1 (min 10 100) then some (Json.arr [])
          else none, fun _ => true⟩, 200,
        Json.obj [("esearchresult", Json.obj [("idlist", Json.arr [Json.str "123"])])],
        200, .wellFormed []⟩ "test" 1 10).requests.count .esearch = 1 := by
  constructor
  · simp [cache_get_value, cache_get, cache_get_loop, cache_get_attempt, truthy,
      dumps, dumpsList]
  · exact falsy_cached_value_is_miss _ "test" 1 10 (by decide)
      (by simp [cache_get_value, cache_get, cache_get_loop, cache_get_attempt, truthy,
        dumps, dumpsList])
